import Mathlib

/-!
Verification of the route-problem formulation and day-partitioning engine of
the courier-scheduler service (`src/api/main.py`).

The Python endpoint code is shallowly embedded as pure Lean functions.
External collaborators are parameters:

* `parse : String → Option Int` abstracts
  `datetime.fromisoformat(s.replace('Z','+00:00'))` followed by
  `(parsed.date() - today).days`: `some k` means the string parses and the
  offset from today is `k` days; `none` means parsing raises.
* `tm : Nat → Nat → Int` abstracts the travel-time matrix returned by the
  external distance service (`compute_time_matrix`).
* `solver : DataModel → Nat → Option (List (List Visit))` abstracts the
  OR-Tools routing solver invoked by `solve_vrp` for a given day: `none`
  models "no solution"; `some vs` gives, per vehicle, the ordered list of
  visited nodes (excluding the virtual start/end) with the solver's
  cumulative arrival minute at each visit.

Everything downstream of those calls (location indexing, job pairs, day
eligibility, route/stop extraction, unassigned computation, weekly
aggregation, HTTP validation and exception wrapping) is translated directly
from the source.
-/

namespace CourierScheduler

/-- Pydantic `JobModel` from the request body. -/
structure JobModel where
  id : String
  location : String
  type : String
  related_job_id : Option String := none
  preferred_date : Option (List String) := none
deriving DecidableEq, Repr

/-- Pydantic `DriverModel`; only the fields the optimizer reads. -/
structure DriverModel where
  id : String
  available_hours : Int := 9
deriving DecidableEq, Repr

/-- One element of `jobs_with_indices` built by `create_data_model`. -/
structure JobEntry where
  id : String
  location_idx : Nat
  type : String
  related_job_id : Option String := none
  preferred_date : Option (List String) := none
deriving DecidableEq, Repr

/-- One visited node of a solver solution, with the solver's cumulative
arrival minute (`solution.Min(time_var)`). -/
structure Visit where
  node : Nat
  arrival : Int
deriving DecidableEq, Repr

/-- `JobStop`: a reported stop with its `[start, end]` arrival window. -/
structure Stop where
  job_id : String
  window : List Int
deriving DecidableEq, Repr

/-- A per-day route as built inside `solve_vrp` (before driver assignment). -/
structure DayRoute where
  vehicle_id : Nat
  stops : List Stop
  total_time : Int
deriving DecidableEq, Repr

/-- `RouteModel` of the response. -/
structure RouteModel where
  driver_id : String
  day : Nat
  stops : List Stop
  total_time : Int
deriving DecidableEq, Repr

/-- `OptimizationResponse`. -/
structure OptimizationResponse where
  routes : List RouteModel
  unassigned : List String
deriving DecidableEq, Repr

/-- FastAPI `HTTPException` as data: status code and detail message. -/
structure HTTPExc where
  status_code : Nat
  detail : String
deriving DecidableEq, Repr

/-- `OptimizationRequest` body. -/
structure OptimizationRequest where
  jobs : List JobModel
  drivers : List DriverModel
  num_drivers_per_day : Nat
deriving DecidableEq, Repr

/-- The dictionary returned by `create_data_model` (the travel-time matrix is
kept as an ambient parameter instead of a field). -/
structure DataModel where
  num_locations : Nat
  num_vehicles : Nat
  jobs : List JobEntry
  job_pairs : List (Nat × Nat)
  jobs_by_day : List (List Nat)
  max_time_per_vehicle : Int
deriving DecidableEq, Repr

/-- Default depot address (`DEPOT_LOCATION` env default). -/
def DEPOT_LOCATION : String := "Birmingham, UK"

/-- Deduplicating location collection: the loop over `all_locations` that
fills `unique_locations`, first occurrence wins. -/
def uniqueLocations : List String → List String → List String
  | acc, [] => acc
  | acc, l :: rest =>
    if l ∈ acc then uniqueLocations acc rest
    else uniqueLocations (acc ++ [l]) rest

/-- `unique_locations` for a job list: depot first, then job locations. -/
def modelLocations (jobs : List JobModel) : List String :=
  uniqueLocations [] (DEPOT_LOCATION :: jobs.map (·.location))

/-- Index of a location in the unique list; equals the value stored in the
`location_indices` dictionary (position of first occurrence). -/
def locIndex (uniq : List String) (l : String) : Nat :=
  uniq.findIdx (fun x => x == l)

/-- `jobs_with_indices`: jobs mapped to their location indices, preserving
input order. -/
def jobsWithIndices (jobs : List JobModel) : List JobEntry :=
  let uniq := modelLocations jobs
  jobs.map fun j =>
    { id := j.id, location_idx := locIndex uniq j.location,
      type := j.type, related_job_id := j.related_job_id,
      preferred_date := j.preferred_date }

/-- The `job_id_to_idx` dictionary: later entries overwrite earlier ones, so
lookup returns the last index carrying the id. -/
def jobIdToIdx (jobs : List JobEntry) (r : String) : Option Nat :=
  (jobs.enum.reverse.find? (fun p => p.2.id == r)).map (·.1)

/-- `job_pairs`: for each entry of type "collection" with a truthy (non-empty)
`related_job_id` that resolves in `job_id_to_idx`, the pair of indices. -/
def jobPairs (jobs : List JobEntry) : List (Nat × Nat) :=
  jobs.enum.filterMap fun p =>
    if p.2.type == "collection" then
      match p.2.related_job_id with
      | some r =>
        if r == "" then none
        else (jobIdToIdx jobs r).map (fun k => (p.1, k))
      | none => none
    else none

/-- The five planning days 0..4. -/
def allDays : List Nat := [0, 1, 2, 3, 4]

/-- Days contributed by one entry's preferred dates: a falsy (absent or
empty) list yields all days; per date string, a parsed offset in `[0,5)`
yields that day, a parse failure yields all days, and an out-of-range parsed
offset yields nothing. -/
def entryDays (parse : String → Option Int) (j : JobEntry) : List Nat :=
  let prefs := j.preferred_date.getD []
  if prefs.isEmpty then allDays
  else prefs.flatMap fun s =>
    match parse s with
    | some k => if 0 ≤ k ∧ k < 5 then [k.toNat] else []
    | none => allDays

/-- `jobs_by_day[d]`: entry indices appended in input order, once per
occurrence of day `d` among the entry's contributed days (duplicates kept,
as in the source). -/
def jobsByDay (parse : String → Option Int) (jobs : List JobEntry)
    (d : Nat) : List Nat :=
  jobs.enum.flatMap fun p =>
    List.replicate ((entryDays parse p.2).count d) p.1

/-- `create_data_model`. -/
def create_data_model (parse : String → Option Int) (jobs : List JobModel)
    (num_drivers_per_day : Nat) (max_hours_per_driver : Int) : DataModel :=
  let uniq := modelLocations jobs
  let jwi := jobsWithIndices jobs
  { num_locations := uniq.length
    num_vehicles := num_drivers_per_day
    jobs := jwi
    job_pairs := jobPairs jwi
    jobs_by_day := (List.range 5).map (jobsByDay parse jwi)
    max_time_per_vehicle := max_hours_per_driver * 60 }

/-- The inner scan of the extraction loop: the first JobEntry whose location
index matches the node (the `for ... break` over `data_model['jobs']`). -/
def firstJobAt (jobs : List JobEntry) (node : Nat) : Option JobEntry :=
  jobs.find? (fun j => j.location_idx == node)

/-- Arrival window `[arrival, min(arrival + 180, max_time_per_vehicle)]`. -/
def mkWindow (maxT : Int) (arrival : Int) : List Int :=
  [arrival, min (arrival + 180) maxT]

/-- Stop extraction for one vehicle's visit sequence: depot nodes are
skipped; any other node is attached to the first JobEntry whose location
matches, if one exists. -/
def extractStops (jobs : List JobEntry) (maxT : Int)
    (visits : List Visit) : List Stop :=
  visits.filterMap fun v =>
    if v.node == 0 then none
    else (firstJobAt jobs v.node).map fun j =>
      { job_id := j.id, window := mkWindow maxT v.arrival }

/-- Sum of arc costs along a node path. -/
def pathCost (tm : Nat → Nat → Int) : List Nat → Int
  | a :: b :: rest => tm a b + pathCost tm (b :: rest)
  | _ => 0

/-- `route_time`: arc costs accumulated along the walk from the depot,
through the visits, back to the depot. -/
def routeTime (tm : Nat → Nat → Int) (visits : List Visit) : Int :=
  pathCost tm (0 :: (visits.map (·.node) ++ [0]))

/-- `allowed_jobs = data_model['jobs_by_day'][day_index]`. -/
def allowedJobs (dm : DataModel) (day : Nat) : List Nat :=
  (dm.jobs_by_day.get? day).getD []

/-- Route extraction of `solve_vrp`: nothing on no solution; otherwise one
`DayRoute` per vehicle with a non-empty stop list. -/
def dayRoutes (tm : Nat → Nat → Int) (dm : DataModel)
    (sol : Option (List (List Visit))) : List DayRoute :=
  match sol with
  | none => []
  | some vs => vs.enum.filterMap fun p =>
      let stops := extractStops dm.jobs dm.max_time_per_vehicle p.2
      if stops.isEmpty then none
      else some { vehicle_id := p.1, stops := stops,
                  total_time := routeTime tm p.2 }

/-- The `is_assigned` check: does the job id occur among the stops of the
day's extracted routes? -/
def isAssigned (routes : List DayRoute) (jid : String) : Bool :=
  routes.any fun r => r.stops.any fun s => s.job_id == jid

/-- The unassigned-for-day loop: job ids of entries eligible that day whose
id occurs in no extracted stop. -/
def dayUnassigned (dm : DataModel) (day : Nat)
    (routes : List DayRoute) : List String :=
  dm.jobs.enum.filterMap fun p =>
    if ¬ isAssigned routes p.2.id = true ∧ p.1 ∈ allowedJobs dm day
    then some p.2.id else none

/-- `solve_vrp` for one day, given the abstract solver outcome. -/
def solve_vrp (tm : Nat → Nat → Int) (dm : DataModel) (day : Nat)
    (sol : Option (List (List Visit))) : List DayRoute × List String :=
  let routes := dayRoutes tm dm sol
  (routes, dayUnassigned dm day routes)

/-- Python `max(list, default=d)`. -/
def pyMaxInt : List Int → Int → Int
  | [], d => d
  | x :: xs, _ => xs.foldl max x

/-- Deduplication modelling `list(set(xs))`; the set's iteration order is
unspecified in Python, so membership and nodup-ness are the meaningful
outputs (this variant keeps the last occurrence of each id). -/
def pyDedup : List String → List String
  | [] => []
  | x :: xs => if x ∈ xs then pyDedup xs else x :: pyDedup xs

/-- The data model built by `optimize_routes`: vehicle-hour budget is the
maximum `available_hours` over the drivers, default 9. -/
def optimize_dm (parse : String → Option Int) (jobs : List JobModel)
    (drivers : List DriverModel) (n : Nat) : DataModel :=
  create_data_model parse jobs n
    (pyMaxInt (drivers.map (·.available_hours)) 9)

/-- Driver id for vehicle slot `i`: positional from the request's driver
list, or a synthesized `additional-driver-N` for the surplus. -/
def driverIdFor (driver_ids : List String) (i : Nat) : String :=
  match driver_ids.get? i with
  | some d => d
  | none => "additional-driver-" ++ toString (i - driver_ids.length + 1)

/-- The body of the per-day loop plus weekly aggregation in
`optimize_routes` (after validation): five day solves, driver assignment,
concatenated routes, deduplicated union of per-day unassigned lists. -/
def optimize_core (parse : String → Option Int) (tm : Nat → Nat → Int)
    (solver : DataModel → Nat → Option (List (List Visit)))
    (jobs : List JobModel) (drivers : List DriverModel) (n : Nat) :
    OptimizationResponse :=
  let dm := optimize_dm parse jobs drivers n
  let driver_ids := drivers.map (·.id)
  let perDay := (List.range 5).map fun d => solve_vrp tm dm d (solver dm d)
  let all_routes := perDay.enum.flatMap fun q =>
    q.2.1.enum.map fun p =>
      { driver_id := driverIdFor driver_ids p.1, day := q.1 + 1,
        stops := p.2.stops, total_time := p.2.total_time : RouteModel }
  let all_unassigned := perDay.flatMap (·.2)
  { routes := all_routes, unassigned := pyDedup all_unassigned }

/-- Starlette's rendering of an HTTPException (`__str__`). -/
def excStr (e : HTTPExc) : String :=
  toString e.status_code ++ ": " ++ e.detail

/-- The `try` body of the endpoint: empty-jobs validation raises a 400,
otherwise the optimization runs. -/
def optimize_body (parse : String → Option Int) (tm : Nat → Nat → Int)
    (solver : DataModel → Nat → Option (List (List Visit)))
    (req : OptimizationRequest) : Except HTTPExc OptimizationResponse :=
  if req.jobs.isEmpty then
    .error { status_code := 400, detail := "No jobs provided for optimization" }
  else
    .ok (optimize_core parse tm solver req.jobs req.drivers
      req.num_drivers_per_day)

/-- The whole endpoint: the blanket `except Exception` catches every
exception of the body — `HTTPException` included, since it subclasses
`Exception` — and re-raises it as a 500. -/
def optimize_routes (parse : String → Option Int) (tm : Nat → Nat → Int)
    (solver : DataModel → Nat → Option (List (List Visit)))
    (req : OptimizationRequest) : Except HTTPExc OptimizationResponse :=
  match optimize_body parse tm solver req with
  | .ok r => .ok r
  | .error e =>
    .error { status_code := 500,
             detail := "Route optimization failed: " ++ excStr e }

/-- Modelled from the spec: the unassigned-for-day set as §4.4 step 5 words
it — "entries in `dayEligibility[day]` whose location never appears in any
vehicle's visit list that day". Kept for comparison against the source's
`dayUnassigned`, which tests job-id membership in the extracted stops
instead. -/
def visitedNodes (sol : Option (List (List Visit))) : List Nat :=
  (sol.getD []).flatMap (fun vs => vs.map Visit.node)

/-- Modelled from the spec (see `visitedNodes`): eligible entries whose
location index is never visited. -/
def specUnassignedForDay (dm : DataModel) (day : Nat)
    (sol : Option (List (List Visit))) : List String :=
  dm.jobs.enum.filterMap fun p =>
    if p.1 ∈ allowedJobs dm day ∧ p.2.location_idx ∉ visitedNodes sol
    then some p.2.id else none

/-- A constant 30-minute travel-time matrix, for concrete instances. -/
def tm30 : Nat → Nat → Int := fun _ _ => 30

/-- A date parser that fails on every string, for concrete instances. -/
def parseNone : String → Option Int := fun _ => none

/-- A solver that reports no solution, for concrete instances. -/
def solverNone : DataModel → Nat → Option (List (List Visit)) :=
  fun _ _ => none

/-- Two distinct jobs sharing one address. -/
def jobsShared : List JobModel :=
  [{ id := "a", location := "L", type := "delivery" },
   { id := "b", location := "L", type := "delivery" }]

/-- Data model for `jobsShared`: both entries sit at location index 1 and
are eligible every day. -/
def dmShared : DataModel := create_data_model parseNone jobsShared 1 9

/-- A one-vehicle solution visiting location index 1 at minute 10. -/
def solShared : Option (List (List Visit)) := some [[⟨1, 10⟩]]

/-- Jobs for the eligibility-bypass scenario: "a" prefers a date parsing to
offset 1 (so it is eligible on day 1 only), "b" has no preference and shares
"a"'s address. -/
def jobsPref : List JobModel :=
  [{ id := "a", location := "L", type := "delivery",
     preferred_date := some ["d1"] },
   { id := "b", location := "L", type := "delivery" }]

/-- Parser for `jobsPref`: the string "d1" parses to offset 1. -/
def parsePref : String → Option Int :=
  fun s => if s = "d1" then some 1 else none

/-- Data model for `jobsPref`. -/
def dmPref : DataModel := create_data_model parsePref jobsPref 1 9

/-- An assignment check is false exactly when the id occurs in no stop. -/
lemma isAssigned_eq_false_iff (routes : List DayRoute) (x : String) :
    isAssigned routes x = false ↔
      ∀ r ∈ routes, ∀ s ∈ r.stops, s.job_id ≠ x := by
  simp [isAssigned]

/-- Membership in the unassigned-for-day list: an eligible entry carries the
id and the id is attached to no stop. -/
lemma mem_dayUnassigned_iff (dm : DataModel) (day : Nat)
    (routes : List DayRoute) (x : String) :
    x ∈ dayUnassigned dm day routes ↔
      ∃ i j, dm.jobs[i]? = some j ∧ j.id = x ∧ i ∈ allowedJobs dm day ∧
        isAssigned routes x = false := by
  unfold dayUnassigned
  rw [List.mem_filterMap]
  constructor
  · rintro ⟨⟨i, j⟩, hmem, hf⟩
    rw [List.mk_mem_enum_iff_getElem?] at hmem
    dsimp only at hf
    by_cases h : ¬ isAssigned routes j.id = true ∧ i ∈ allowedJobs dm day
    · rw [if_pos h] at hf
      injection hf with hf
      subst hf
      exact ⟨i, j, hmem, rfl, h.2, by simpa using h.1⟩
    · rw [if_neg h] at hf
      cases hf
  · rintro ⟨i, j, hget, rfl, hel, has⟩
    refine ⟨(i, j), ?_, ?_⟩
    · rw [List.mk_mem_enum_iff_getElem?]; exact hget
    · dsimp only
      rw [if_pos ⟨by simp [has], hel⟩]

/-- C1: the empty-jobs request is rejected before any solving — the result
does not depend on the parser, matrix or solver — but the endpoint's own
400 `HTTPException` is caught by the blanket `except Exception` handler and
re-raised as an HTTP 500, so the claimed 400 status never reaches the
client. -/
theorem optimize_empty_jobs_wrapped_500 (parse : String → Option Int)
    (tm : Nat → Nat → Int)
    (solver : DataModel → Nat → Option (List (List Visit)))
    (drivers : List DriverModel) (n : Nat) :
    optimize_routes parse tm solver ⟨[], drivers, n⟩
      = Except.error
          ⟨500, "Route optimization failed: 400: No jobs provided for optimization"⟩ :=
  rfl

/-- C2 counterexample: on the zero-jobs input the endpoint does not return
`{routes: [], unassigned: []}`; it returns an error. -/
theorem zero_jobs_not_ok_empty :
    optimize_routes parseNone tm30 solverNone ⟨[], [], 1⟩
      ≠ Except.ok ⟨[], []⟩ :=
  fun h => Except.noConfusion h

/-- C2 amended: for zero jobs the optimize operation is rejected with an
HTTP error (status 500 after the blanket handler wraps the validation
exception); no `{routes, unassigned}` result is produced. -/
theorem zero_jobs_rejected (parse : String → Option Int)
    (tm : Nat → Nat → Int)
    (solver : DataModel → Nat → Option (List (List Visit)))
    (drivers : List DriverModel) (n : Nat) :
    ∃ e, optimize_routes parse tm solver ⟨[], drivers, n⟩ = Except.error e
      ∧ e.status_code = 500 :=
  ⟨_, rfl, rfl⟩

/-- C3 counterexample: in `dmShared` both entries are eligible on day 0 and
share location index 1; the solution `solShared` visits that location, yet
the code reports "b" unassigned, while the spec's location-based rule
(`specUnassignedForDay`) reports nobody unassigned. -/
theorem shared_location_unassigned_counterexample :
    (solve_vrp tm30 dmShared 0 solShared).2 = ["b"]
      ∧ specUnassignedForDay dmShared 0 solShared = []
      ∧ 1 ∈ allowedJobs dmShared 0
      ∧ (dmShared.jobs[1]?).map JobEntry.location_idx = some 1
      ∧ 1 ∈ visitedNodes solShared := by
  decide

/-- C9: on day 0 of `dmPref` only entry 1 ("b") is eligible, but the
extraction scan attaches entry 0's id "a" — the ineligible entry that
precedes "b" in input order at the shared location — because the scan runs
over all jobs without checking day eligibility. -/
theorem ineligible_id_attached :
    (solve_vrp tm30 dmPref 0 solShared).1
        = [⟨0, [⟨"a", [10, 190]⟩], 60⟩]
      ∧ dmPref.jobs[0]?
        = some ⟨"a", 1, "delivery", none, some ["d1"]⟩
      ∧ 0 ∉ allowedJobs dmPref 0
      ∧ 1 ∈ allowedJobs dmPref 0
      ∧ dmPref.jobs[1]? = some ⟨"b", 1, "delivery", none, none⟩ := by
  decide

/-- C3 amended: for every day, every data model and every solver outcome,
the unassigned-for-day list holds exactly the job ids of eligible entries
whose id appears in no extracted stop of that day — membership is by job id,
not by location index. -/
theorem mem_day_unassigned_characterization (tm : Nat → Nat → Int)
    (dm : DataModel) (day : Nat) (sol : Option (List (List Visit)))
    (x : String) :
    x ∈ (solve_vrp tm dm day sol).2 ↔
      ∃ i j, dm.jobs[i]? = some j ∧ j.id = x ∧ i ∈ allowedJobs dm day ∧
        ∀ r ∈ (solve_vrp tm dm day sol).1, ∀ s ∈ r.stops, s.job_id ≠ x := by
  simp only [solve_vrp, mem_dayUnassigned_iff, isAssigned_eq_false_iff]

/-- C5: an entry eligible on a day appears — by job id — in exactly one of
the day's route stops or the day's unassigned-for-day set, whatever the
solver outcome. -/
theorem eligible_exactly_one (tm : Nat → Nat → Int) (dm : DataModel)
    (day : Nat) (sol : Option (List (List Visit))) (i : Nat) (j : JobEntry)
    (hj : dm.jobs[i]? = some j) (hel : i ∈ allowedJobs dm day) :
    (∃ r ∈ (solve_vrp tm dm day sol).1, ∃ s ∈ r.stops, s.job_id = j.id) ↔
      j.id ∉ (solve_vrp tm dm day sol).2 := by
  simp only [solve_vrp]
  constructor
  · rintro ⟨r, hr, s, hs, hid⟩ hmem
    rw [mem_dayUnassigned_iff] at hmem
    obtain ⟨i', j', _, _, _, hfa⟩ := hmem
    rw [isAssigned_eq_false_iff] at hfa
    exact hfa r hr s hs hid
  · intro hn
    by_contra hne
    push_neg at hne
    apply hn
    rw [mem_dayUnassigned_iff]
    refine ⟨i, j, hj, rfl, hel, ?_⟩
    rw [isAssigned_eq_false_iff]
    exact hne

/-- Witness for C5 at a concrete day solve: two eligible entries at one
location, a solution visiting it — the instance discharges both
hypotheses. -/
theorem eligible_exactly_one_witness :
    (∃ r ∈ (solve_vrp tm30 dmShared 0 solShared).1, ∃ s ∈ r.stops,
        s.job_id = (JobEntry.mk "a" 1 "delivery" none none).id) ↔
      (JobEntry.mk "a" 1 "delivery" none none).id
        ∉ (solve_vrp tm30 dmShared 0 solShared).2 :=
  eligible_exactly_one tm30 dmShared 0 solShared 0
    ⟨"a", 1, "delivery", none, none⟩ (by decide) (by decide)

/-- The five planning days as a membership bound. -/
lemma mem_allDays {d : Nat} : d ∈ allDays ↔ d < 5 := by
  have h : allDays = List.range 5 := rfl
  rw [h, List.mem_range]

/-- One date string's contribution to eligibility on day `d`: its parse
either yields exactly offset `d`, or fails. -/
lemma mem_entry_branch (parse : String → Option Int) (s : String) (d : Nat)
    (hd : d < 5) :
    (d ∈ match parse s with
      | some k => if 0 ≤ k ∧ k < 5 then [k.toNat] else []
      | none => allDays) ↔
      (parse s = some (d : Int) ∨ parse s = none) := by
  cases hps : parse s with
  | none => simpa [mem_allDays] using hd
  | some k =>
    simp only [Option.some.injEq, reduceCtorEq, or_false]
    constructor
    · intro hmem
      by_cases h : 0 ≤ k ∧ k < 5
      · rw [if_pos h] at hmem
        simp only [List.mem_singleton] at hmem
        omega
      · rw [if_neg h] at hmem
        cases hmem
    · intro hk
      rw [if_pos (by omega)]
      simp only [List.mem_singleton]
      omega

/-- Day membership contributed by a single entry's preferred dates. -/
lemma mem_entryDays_iff (parse : String → Option Int) (j : JobEntry)
    (d : Nat) (hd : d < 5) :
    d ∈ entryDays parse j ↔
      (j.preferred_date.getD [] = []
        ∨ (∃ s ∈ j.preferred_date.getD [], parse s = some (d : Int))
        ∨ (∃ s ∈ j.preferred_date.getD [], parse s = none)) := by
  unfold entryDays
  by_cases he : (j.preferred_date.getD []).isEmpty
  · rw [if_pos he, List.isEmpty_iff.mp he]
    simp [mem_allDays, hd]
  · rw [if_neg he]
    have hne : j.preferred_date.getD [] ≠ [] :=
      fun hl => he (List.isEmpty_iff.mpr hl)
    rw [List.mem_flatMap]
    simp only [mem_entry_branch parse _ d hd]
    constructor
    · rintro ⟨s, hs, h | h⟩
      · exact Or.inr (Or.inl ⟨s, hs, h⟩)
      · exact Or.inr (Or.inr ⟨s, hs, h⟩)
    · rintro (h | ⟨s, hs, h⟩ | ⟨s, hs, h⟩)
      · exact absurd h hne
      · exact ⟨s, hs, Or.inl h⟩
      · exact ⟨s, hs, Or.inr h⟩

/-- Membership in a day's eligibility list, reduced to the entry stored at
the index. -/
lemma mem_jobsByDay_iff (parse : String → Option Int)
    (jobs : List JobEntry) (d i : Nat) :
    i ∈ jobsByDay parse jobs d ↔
      ∃ j, jobs[i]? = some j ∧ d ∈ entryDays parse j := by
  unfold jobsByDay
  rw [List.mem_flatMap]
  constructor
  · rintro ⟨⟨i', j⟩, hmem, hrep⟩
    rw [List.mem_replicate] at hrep
    obtain ⟨hc, rfl⟩ := hrep
    rw [List.mk_mem_enum_iff_getElem?] at hmem
    exact ⟨j, hmem, List.count_pos_iff.mp (Nat.pos_iff_ne_zero.mpr hc)⟩
  · rintro ⟨j, hget, hmem⟩
    refine ⟨(i, j), ?_, ?_⟩
    · rw [List.mk_mem_enum_iff_getElem?]; exact hget
    · rw [List.mem_replicate]
      exact ⟨Nat.pos_iff_ne_zero.mp (List.count_pos_iff.mpr hmem), rfl⟩

/-- C6: an entry is eligible on day `d` exactly when its preferred-date list
is absent or empty, or some listed date parses to offset `d`, or some listed
date fails to parse; a date parsing outside `[0,5)` contributes nothing. -/
theorem day_eligibility_characterization (parse : String → Option Int)
    (jobs : List JobEntry) (d i : Nat) (j : JobEntry)
    (hd : d < 5) (hj : jobs[i]? = some j) :
    i ∈ jobsByDay parse jobs d ↔
      (j.preferred_date.getD [] = []
        ∨ (∃ s ∈ j.preferred_date.getD [], parse s = some (d : Int))
        ∨ (∃ s ∈ j.preferred_date.getD [], parse s = none)) := by
  rw [mem_jobsByDay_iff]
  constructor
  · rintro ⟨j', hj', hmem⟩
    rw [hj] at hj'
    injection hj' with hj'
    subst hj'
    exact (mem_entryDays_iff parse j d hd).mp hmem
  · intro h
    exact ⟨j, hj, (mem_entryDays_iff parse j d hd).mpr h⟩

/-- Witness for C6 at the concrete `jobsPref` model: entry 0 prefers the
string "d1" parsing to offset 1, hence is eligible on day 1. -/
theorem day_eligibility_characterization_witness :
    0 ∈ jobsByDay parsePref (jobsWithIndices jobsPref) 1 ↔
      ((JobEntry.mk "a" 1 "delivery" none (some ["d1"])).preferred_date.getD [] = []
        ∨ (∃ s ∈ (JobEntry.mk "a" 1 "delivery" none
              (some ["d1"])).preferred_date.getD [],
            parsePref s = some ((1 : Nat) : Int))
        ∨ (∃ s ∈ (JobEntry.mk "a" 1 "delivery" none
              (some ["d1"])).preferred_date.getD [],
            parsePref s = none)) :=
  day_eligibility_characterization parsePref (jobsWithIndices jobsPref) 1 0
    ⟨"a", 1, "delivery", none, some ["d1"]⟩ (by decide) (by decide)

/-- Indices are determined by ids when the id column is duplicate-free. -/
lemma id_index_inj {jobs : List JobEntry}
    (hnd : (jobs.map JobEntry.id).Nodup) {i k : Nat} {a b : JobEntry}
    (ha : jobs[i]? = some a) (hb : jobs[k]? = some b)
    (hid : a.id = b.id) : i = k := by
  obtain ⟨hi, hga⟩ := List.getElem?_eq_some_iff.mp ha
  obtain ⟨hk, hgb⟩ := List.getElem?_eq_some_iff.mp hb
  have hi2 : i < (jobs.map JobEntry.id).length := by simpa using hi
  have hk2 : k < (jobs.map JobEntry.id).length := by simpa using hk
  have hmap : (jobs.map JobEntry.id)[i] = (jobs.map JobEntry.id)[k] := by
    simp [hga, hgb, hid]
  exact (List.Nodup.getElem_inj_iff hnd).mp hmap

/-- The `job_id_to_idx` lookup characterized, assuming unique job ids: it
succeeds exactly on the index storing an entry with the looked-up id. -/
lemma jobIdToIdx_eq_some_iff (jobs : List JobEntry)
    (hnd : (jobs.map JobEntry.id).Nodup) (r : String) (k : Nat) :
    jobIdToIdx jobs r = some k ↔
      ∃ j', jobs[k]? = some j' ∧ j'.id = r := by
  unfold jobIdToIdx
  constructor
  · intro h
    cases hf : jobs.enum.reverse.find? (fun p => p.2.id == r) with
    | none => rw [hf] at h; cases h
    | some p =>
      rw [hf] at h
      injection h with h
      subst h
      have hpmem : p ∈ jobs.enum := List.mem_reverse.mp (List.mem_of_find?_eq_some hf)
      have hget : jobs[p.1]? = some p.2 := by
        have := hpmem
        rcases p with ⟨i, j⟩
        exact List.mk_mem_enum_iff_getElem?.mp this
      have hps := @List.find?_some _ (fun q => q.2.id == r) p jobs.enum.reverse hf
      exact ⟨p.2, hget, beq_iff_eq.mp hps⟩
  · rintro ⟨j', hget, hid⟩
    cases hf : jobs.enum.reverse.find? (fun p => p.2.id == r) with
    | none =>
      exfalso
      have hmem : ((k, j') : Nat × JobEntry) ∈ jobs.enum.reverse :=
        List.mem_reverse.mpr (List.mk_mem_enum_iff_getElem?.mpr hget)
      exact (List.find?_eq_none.mp hf) _ hmem (by simp [hid])
    | some p =>
      have hpmem : p ∈ jobs.enum := List.mem_reverse.mp (List.mem_of_find?_eq_some hf)
      have hget' : jobs[p.1]? = some p.2 := by
        rcases p with ⟨i, j⟩
        exact List.mk_mem_enum_iff_getElem?.mp hpmem
      have hps := @List.find?_some _ (fun q => q.2.id == r) p jobs.enum.reverse hf
      have hid' : p.2.id = r := beq_iff_eq.mp hps
      have : p.1 = k := id_index_inj hnd hget' hget (hid'.trans hid.symm)
      simp [this]

/-- C7: with unique, non-empty job ids, `(i, k)` is a job pair exactly when
entry `i` is a collection whose `related_job_id` is the id stored at entry
`k` — the related entry's type is not consulted. Non-empty ids are needed
because Python truthiness skips a related_job_id equal to the empty
string. -/
theorem job_pairs_characterization (jobs : List JobEntry)
    (hnd : (jobs.map JobEntry.id).Nodup)
    (hne : ∀ j ∈ jobs, j.id ≠ "") (i k : Nat) :
    (i, k) ∈ jobPairs jobs ↔
      ∃ j, jobs[i]? = some j ∧ j.type = "collection" ∧
        ∃ r j', j.related_job_id = some r ∧ jobs[k]? = some j' ∧ j'.id = r := by
  unfold jobPairs
  rw [List.mem_filterMap]
  constructor
  · rintro ⟨⟨i', j⟩, hmem, hf⟩
    rw [List.mk_mem_enum_iff_getElem?] at hmem
    obtain ⟨jid, jloc, jty, jrel, jpref⟩ := j
    dsimp only at hf
    by_cases ht : jty == "collection"
    · rw [if_pos ht] at hf
      cases jrel with
      | none => cases hf
      | some r =>
        dsimp only at hf
        by_cases hre : r == ""
        · rw [if_pos hre] at hf; cases hf
        · rw [if_neg hre] at hf
          cases hlk : jobIdToIdx jobs r with
          | none => rw [hlk] at hf; cases hf
          | some k' =>
            rw [hlk, Option.map_some'] at hf
            injection hf with hf
            obtain ⟨h1, h2⟩ := Prod.mk.inj hf
            subst h1
            subst h2
            obtain ⟨j', hj', hid⟩ := (jobIdToIdx_eq_some_iff jobs hnd r _).mp hlk
            exact ⟨⟨jid, jloc, jty, some r, jpref⟩, hmem, beq_iff_eq.mp ht,
              r, j', rfl, hj', hid⟩
    · rw [if_neg ht] at hf; cases hf
  · rintro ⟨j, hget, htype, r, j', hrel, hget', hid⟩
    refine ⟨(i, j), ?_, ?_⟩
    · rw [List.mk_mem_enum_iff_getElem?]; exact hget
    · have hrne : r ≠ "" :=
        fun h => hne j' (List.getElem?_mem hget') (hid.trans h)
      dsimp only
      rw [if_pos (beq_iff_eq.mpr htype), hrel]
      dsimp only
      rw [if_neg (by simpa using hrne)]
      rw [(jobIdToIdx_eq_some_iff jobs hnd r k).mpr ⟨j', hget', hid⟩]
      rfl

/-- Witness for C7: a collection entry related to a delivery entry forms
the pair `(0, 1)`; hypotheses hold for the two distinct non-empty ids. -/
theorem job_pairs_characterization_witness :
    (0, 1) ∈ jobPairs
      [⟨"c", 1, "collection", some "d", none⟩,
       ⟨"d", 2, "delivery", none, none⟩] :=
  (job_pairs_characterization
      [⟨"c", 1, "collection", some "d", none⟩,
       ⟨"d", 2, "delivery", none, none⟩]
      (by decide) (by decide) 0 1).mpr
    ⟨⟨"c", 1, "collection", some "d", none⟩, rfl, rfl,
      "d", ⟨"d", 2, "delivery", none, none⟩, rfl, rfl, rfl⟩

/-- Deduplication keeps exactly the members. -/
lemma mem_pyDedup {l : List String} {x : String} :
    x ∈ pyDedup l ↔ x ∈ l := by
  induction l with
  | nil => simp [pyDedup]
  | cons a as ih =>
    by_cases h : a ∈ as
    · rw [show pyDedup (a :: as) = pyDedup as from if_pos h, ih, List.mem_cons]
      exact ⟨Or.inr, fun hx => hx.elim (fun e => e ▸ h) id⟩
    · rw [show pyDedup (a :: as) = a :: pyDedup as from if_neg h,
        List.mem_cons, ih, List.mem_cons]

/-- Deduplication yields a duplicate-free list. -/
lemma nodup_pyDedup (l : List String) : (pyDedup l).Nodup := by
  induction l with
  | nil => simp [pyDedup]
  | cons a as ih =>
    by_cases h : a ∈ as
    · rw [show pyDedup (a :: as) = pyDedup as from if_pos h]
      exact ih
    · rw [show pyDedup (a :: as) = a :: pyDedup as from if_neg h]
      exact List.nodup_cons.mpr ⟨fun hm => h (mem_pyDedup.mp hm), ih⟩

/-- C8: the weekly unassigned set is the deduplicated union of the five
days' unassigned-for-day lists — membership on any one day suffices, even if
the job was routed on a different eligible day. -/
theorem weekly_unassigned_union (parse : String → Option Int)
    (tm : Nat → Nat → Int)
    (solver : DataModel → Nat → Option (List (List Visit)))
    (jobs : List JobModel) (drivers : List DriverModel) (n : Nat) :
    (∀ x, x ∈ (optimize_core parse tm solver jobs drivers n).unassigned ↔
        ∃ d, d < 5 ∧
          x ∈ (solve_vrp tm (optimize_dm parse jobs drivers n) d
                (solver (optimize_dm parse jobs drivers n) d)).2)
      ∧ (optimize_core parse tm solver jobs drivers n).unassigned.Nodup := by
  constructor
  · intro x
    simp only [optimize_core, mem_pyDedup, List.mem_flatMap, List.mem_map,
      List.mem_range]
    constructor
    · rintro ⟨l, ⟨d, hd, rfl⟩, hx⟩
      exact ⟨d, hd, hx⟩
    · rintro ⟨d, hd, hx⟩
      exact ⟨_, ⟨d, hd, rfl⟩, hx⟩
  · exact nodup_pyDedup _

/-- C10: with a non-empty jobs list and an empty drivers list the operation
proceeds: the result is the ordinary optimization response, the vehicle time
cap defaults to `9 * 60 = 540` minutes, and every route carries a
synthesized `additional-driver-N` identity. -/
theorem empty_drivers_defaults (parse : String → Option Int)
    (tm : Nat → Nat → Int)
    (solver : DataModel → Nat → Option (List (List Visit)))
    (jobs : List JobModel) (n : Nat) (h : jobs ≠ []) :
    optimize_routes parse tm solver ⟨jobs, [], n⟩
        = Except.ok (optimize_core parse tm solver jobs [] n)
      ∧ (optimize_dm parse jobs [] n).max_time_per_vehicle = 540
      ∧ ∀ r ∈ (optimize_core parse tm solver jobs [] n).routes,
          ∃ N, 1 ≤ N ∧ r.driver_id = "additional-driver-" ++ toString N := by
  refine ⟨?_, rfl, ?_⟩
  · unfold optimize_routes optimize_body
    rw [if_neg (by simpa [List.isEmpty_iff] using h)]
  · intro r hr
    simp only [optimize_core, List.mem_flatMap, List.mem_map] at hr
    obtain ⟨q, hq, p, hp, rfl⟩ := hr
    refine ⟨p.1 + 1, Nat.le_add_left 1 p.1, ?_⟩
    simp [driverIdFor]

/-- Witness for C10 at a single concrete job, no drivers, one vehicle. -/
theorem empty_drivers_defaults_witness :
    ([⟨"a", "L", "delivery", none, none⟩] : List JobModel) ≠ []
      ∧ (optimize_routes parseNone tm30 solverNone
            ⟨[⟨"a", "L", "delivery", none, none⟩], [], 1⟩
          = Except.ok (optimize_core parseNone tm30 solverNone
              [⟨"a", "L", "delivery", none, none⟩] [] 1)
        ∧ (optimize_dm parseNone [⟨"a", "L", "delivery", none, none⟩]
            [] 1).max_time_per_vehicle = 540
        ∧ ∀ r ∈ (optimize_core parseNone tm30 solverNone
              [⟨"a", "L", "delivery", none, none⟩] [] 1).routes,
            ∃ N, 1 ≤ N ∧ r.driver_id = "additional-driver-" ++ toString N) :=
  ⟨by decide,
    empty_drivers_defaults parseNone tm30 solverNone
      [⟨"a", "L", "delivery", none, none⟩] 1 (by decide)⟩

/-- Modelled from the spec (§4.4 step 4) for comparison with the source's
extraction: walk the visited nodes, skip the depot, and attach the first
not-yet-reported JobEntry whose location index matches; `reported` carries
the indices of entries already attached. -/
def specAttachIds (jobs : List JobEntry) :
    List Nat → List Nat → List String
  | _, [] => []
  | reported, n :: rest =>
    if n == 0 then specAttachIds jobs reported rest
    else
      match jobs.enum.find?
          (fun p => (! reported.contains p.1) && p.2.location_idx == n) with
      | some p => p.2.id :: specAttachIds jobs (p.1 :: reported) rest
      | none => specAttachIds jobs reported rest

/-- The job ids the source's extraction emits, as a function of the visited
nodes alone. -/
def codeAttachIds (jobs : List JobEntry) (nodes : List Nat) : List String :=
  nodes.filterMap fun n =>
    if n == 0 then none else (firstJobAt jobs n).map JobEntry.id

/-- The extracted stops' ids depend only on the visited nodes. -/
lemma extractStops_map_job_id (jobs : List JobEntry) (maxT : Int)
    (visits : List Visit) :
    (extractStops jobs maxT visits).map Stop.job_id
      = codeAttachIds jobs (visits.map Visit.node) := by
  unfold extractStops codeAttachIds
  rw [List.map_filterMap, List.filterMap_map]
  congr 1
  funext v
  simp only [Function.comp]
  by_cases h : (v.node == 0) = true
  · rw [if_pos h, if_pos h]
    rfl
  · rw [if_neg h, if_neg h]
    cases firstJobAt jobs v.node <;> rfl

/-- Lists searched with pointwise-equal predicates find the same result. -/
lemma find?_congr {α : Type _} {p q : α → Bool} :
    ∀ (l : List α), (∀ a ∈ l, p a = q a) → l.find? p = l.find? q
  | [], _ => rfl
  | a :: as, h => by
    have ha : p a = q a := h a (List.mem_cons_self a as)
    by_cases hq : q a = true
    · rw [List.find?_cons_of_pos as (ha ▸ hq), List.find?_cons_of_pos as hq]
    · rw [List.find?_cons_of_neg as (by rw [ha]; exact hq),
        List.find?_cons_of_neg as hq]
      exact find?_congr as (fun b hb => h b (List.mem_cons_of_mem a hb))

/-- Searching an enumerated list by a predicate on the values and dropping
the index is searching the plain list. -/
lemma find?_enumFrom_map_snd {α : Type _} (q : α → Bool) :
    ∀ (k : Nat) (l : List α),
      ((List.enumFrom k l).find? (fun p => q p.2)).map Prod.snd = l.find? q
  | _, [] => rfl
  | k, a :: as => by
    by_cases hq : q a = true
    · rw [show List.enumFrom k (a :: as) = (k, a) :: List.enumFrom (k+1) as
          from rfl,
        List.find?_cons_of_pos _ (by simpa using hq),
        List.find?_cons_of_pos as hq]
      rfl
    · rw [show List.enumFrom k (a :: as) = (k, a) :: List.enumFrom (k+1) as
          from rfl,
        List.find?_cons_of_neg _ (by simpa using hq),
        List.find?_cons_of_neg as hq]
      exact find?_enumFrom_map_snd q (k+1) as

/-- When no non-depot node repeats, the source's always-first-match scan
agrees with the spec's first-not-yet-reported scan: every entry already
reported sits at a previously visited location, hence never matches the
current node. -/
lemma codeAttach_eq_specAttach (jobs : List JobEntry) :
    ∀ (nodes : List Nat) (reported : List Nat),
      (nodes.filter (fun n => ! (n == 0))).Nodup →
      (∀ i ∈ reported, ∀ j, jobs[i]? = some j →
        ∀ m ∈ nodes, m ≠ 0 → j.location_idx ≠ m) →
      codeAttachIds jobs nodes = specAttachIds jobs reported nodes
  | [], reported, _, _ => rfl
  | n :: rest, reported, hnd, hrep => by
    by_cases hn0 : n == 0
    · rw [show codeAttachIds jobs (n :: rest)
          = codeAttachIds jobs rest by
            unfold codeAttachIds
            rw [List.filterMap_cons]
            simp [hn0]]
      rw [show specAttachIds jobs reported (n :: rest)
          = specAttachIds jobs reported rest by
            conv_lhs => rw [specAttachIds]
            rw [if_pos hn0]]
      refine codeAttach_eq_specAttach jobs rest reported ?_ ?_
      · rw [List.filter_cons_of_neg (by simp [hn0])] at hnd
        exact hnd
      · intro i hi j hj m hm hm0
        exact hrep i hi j hj m (List.mem_cons_of_mem n hm) hm0
    · have hne : n ≠ 0 := by simpa using hn0
      have hnd' : (n :: rest.filter (fun m => ! (m == 0))).Nodup := by
        rw [List.filter_cons_of_pos (by simpa using hn0)] at hnd
        exact hnd
      have hnmem : n ∉ rest.filter (fun m => ! (m == 0)) :=
        (List.nodup_cons.mp hnd').1
      have hcongr : jobs.enum.find?
            (fun p => (! reported.contains p.1) && p.2.location_idx == n)
          = jobs.enum.find? (fun p => p.2.location_idx == n) := by
        refine find?_congr jobs.enum ?_
        rintro ⟨i, j⟩ hmem
        by_cases hloc : (j.location_idx == n) = true
        · have hloc' : j.location_idx = n := beq_iff_eq.mp hloc
          have hni : i ∉ reported := by
            intro hi
            exact hrep i hi j (List.mk_mem_enum_iff_getElem?.mp hmem) n
              (List.mem_cons_self n rest) hne hloc'
          simp [hloc, hni]
        · simp [Bool.not_eq_true _ ▸ hloc]
      have hbridge : (jobs.enum.find?
            (fun p => p.2.location_idx == n)).map Prod.snd
          = firstJobAt jobs n :=
        find?_enumFrom_map_snd (fun j => j.location_idx == n) 0 jobs
      cases hfind : jobs.enum.find? (fun p => p.2.location_idx == n) with
      | none =>
        have hfja : firstJobAt jobs n = none := by
          rw [← hbridge, hfind]; rfl
        rw [show codeAttachIds jobs (n :: rest) = codeAttachIds jobs rest by
            unfold codeAttachIds
            rw [List.filterMap_cons]
            simp [hn0, hfja]]
        rw [show specAttachIds jobs reported (n :: rest)
            = specAttachIds jobs reported rest by
              conv_lhs => rw [specAttachIds]
              rw [if_neg hn0, hcongr, hfind]]
        refine codeAttach_eq_specAttach jobs rest reported ?_ ?_
        · exact (List.nodup_cons.mp hnd').2
        · intro i hi j hj m hm hm0
          exact hrep i hi j hj m (List.mem_cons_of_mem n hm) hm0
      | some p =>
        have hfja : firstJobAt jobs n = some p.2 := by
          rw [← hbridge, hfind]; rfl
        have hgetp : jobs[p.1]? = some p.2 := by
          have hpmem := List.mem_of_find?_eq_some hfind
          rcases p with ⟨i, j⟩
          exact List.mk_mem_enum_iff_getElem?.mp hpmem
        have hlocp : p.2.location_idx = n := by
          have hps := @List.find?_some _
            (fun q => q.2.location_idx == n) p jobs.enum hfind
          exact beq_iff_eq.mp hps
        rw [show codeAttachIds jobs (n :: rest)
            = p.2.id :: codeAttachIds jobs rest by
              unfold codeAttachIds
              rw [List.filterMap_cons]
              simp [hn0, hfja]]
        rw [show specAttachIds jobs reported (n :: rest)
            = p.2.id :: specAttachIds jobs (p.1 :: reported) rest by
              conv_lhs => rw [specAttachIds]
              rw [if_neg hn0, hcongr, hfind]]
        congr 1
        refine codeAttach_eq_specAttach jobs rest (p.1 :: reported) ?_ ?_
        · exact (List.nodup_cons.mp hnd').2
        · intro i hi j hj m hm hm0
          rcases List.mem_cons.mp hi with rfl | hi'
          · have hjp : j = p.2 := Option.some.inj (hj.symm.trans hgetp)
            subst hjp
            rw [hlocp]
            intro hnm
            exact hnmem (hnm ▸ List.mem_filter.mpr ⟨hm, by simpa using hm0⟩)
          · exact hrep i hi' j hj m (List.mem_cons_of_mem n hm) hm0

/-- C4: when no non-depot node is visited twice across the walk — true of
every genuine solver solution, where each node is served at most once — the
extraction emits, per matched non-depot visit, exactly one stop whose job id
is that of the first not-yet-reported JobEntry matching the node (which,
since locations are never revisited, is simply the first matching entry in
input order); at most one stop arises per physical visit. -/
theorem extraction_first_unreported (jobs : List JobEntry) (maxT : Int)
    (visits : List Visit)
    (h : ((visits.map Visit.node).filter (fun n => ! (n == 0))).Nodup) :
    (extractStops jobs maxT visits).map Stop.job_id
        = specAttachIds jobs [] (visits.map Visit.node)
      ∧ (extractStops jobs maxT visits).length ≤ visits.length := by
  constructor
  · rw [extractStops_map_job_id]
    exact codeAttach_eq_specAttach jobs (visits.map Visit.node) [] h
      (by intro i hi; cases hi)
  · unfold extractStops
    exact List.length_filterMap_le _ visits

/-- Witness for C4: two entries share location 1; a single visit to node 1
satisfies the no-revisit hypothesis, and exactly the first entry's id is
attached. -/
theorem extraction_first_unreported_witness :
    ((([⟨1, 5⟩] : List Visit).map Visit.node).filter
        (fun n => ! (n == 0))).Nodup
      ∧ (extractStops (jobsWithIndices jobsShared) 540
            ([⟨1, 5⟩] : List Visit)).map Stop.job_id
          = specAttachIds (jobsWithIndices jobsShared) []
              (([⟨1, 5⟩] : List Visit).map Visit.node) :=
  ⟨by decide,
    (extraction_first_unreported (jobsWithIndices jobsShared) 540
      [⟨1, 5⟩] (by decide)).1⟩

end CourierScheduler
